import Mathlib

/-!
Verification of the AI Paper Review system against its specification.

The development shallowly embeds:
* the Supabase SQL usage-tracking functions (`increment_usage`, `get_monthly_usage`);
* the React frontend's navigation, overlay and upload logic (`App.jsx`);
* the backend core (orchestrator, citation resolver, aggregator), which is not
  present in the repository snapshot and is therefore modelled from the spec.
-/

namespace Db

/-- A row of the `usage` table: `user_id`, `month` (format YYYY-MM), `review_count`.
The table carries a UNIQUE(user_id, month) constraint, so at most one row matches
a given user and month; the embedding reads/updates the first matching row. -/
structure UsageRow where
  user_id : String
  month : String
  review_count : Int
  deriving Repr, DecidableEq

/-- The WHERE clause `user_id = p_user_id AND month = current_month`. -/
def rowMatches (u m : String) (r : UsageRow) : Bool :=
  r.user_id == u && r.month == m

/-- `get_monthly_usage(p_user_id)`: `SELECT review_count ... WHERE user_id = p_user_id
AND month = current_month; RETURN COALESCE(count, 0)`.  The current month is made an
explicit parameter `m`. -/
def get_monthly_usage (db : List UsageRow) (u m : String) : Int :=
  match db.find? (rowMatches u m) with
  | some r => r.review_count
  | none => 0

/-- `increment_usage(p_user_id)`: `INSERT INTO usage (user_id, month, review_count)
VALUES (p_user_id, current_month, 1) ON CONFLICT (user_id, month) DO UPDATE SET
review_count = usage.review_count + 1`.  With the UNIQUE(user_id, month) constraint the
conflict row is the (unique) matching row; the embedding updates the first match and
otherwise appends the fresh row. -/
def increment_usage (db : List UsageRow) (u m : String) : List UsageRow :=
  match db with
  | [] => [⟨u, m, 1⟩]
  | r :: rest =>
    if rowMatches u m r then { r with review_count := r.review_count + 1 } :: rest
    else r :: increment_usage rest u m

end Db

namespace Frontend

/-- JS truthiness of a number (0 is falsy, any other number truthy). -/
def truthyInt (n : Int) : Bool := n != 0

/-- `numPages || 1` where `numPages` is `null` before the document loads. -/
def jsOr1 (numPages : Option Int) : Int :=
  match numPages with
  | some n => if truthyInt n then n else 1
  | none => 1

/-- `goToPage` from App.jsx: `setCurrentPage(Math.max(1, Math.min(page, numPages || 1)))`.
Returns the new `currentPage`. -/
def goToPage (numPages : Option Int) (page : Int) : Int :=
  max 1 (min page (jsOr1 numPages))

/-- A highlight record as delivered to the frontend
(`{id, page, x0, y0, x1, y1, width, height, comment_id}`). -/
structure JHighlight where
  id : Nat
  page : Int
  x0 : ℚ
  y0 : ℚ
  x1 : ℚ
  y1 : ℚ
  width : ℚ
  height : ℚ
  comment_id : Nat
  deriving Repr, DecidableEq

/-- `getCurrentPageHighlights`: `reviewData.highlights.filter(h => h.page === currentPage)`. -/
def getCurrentPageHighlights (highlights : List JHighlight) (currentPage : Int) : List JHighlight :=
  highlights.filter (fun h => h.page == currentPage)

/-- The CSS style of one overlay rectangle, in percent of the rendered page. -/
structure OverlayStyle where
  left : ℚ
  top : ℚ
  width : ℚ
  height : ℚ
  deriving Repr, DecidableEq

/-- The overlay style computed in the highlights-layer of App.jsx:
`left: (x0/width)*100 %`, `top: (y0/height)*100 %`, `width: ((x1-x0)/width)*100 %`,
`height: ((y1-y0)/height)*100 %`.  The client zoom `scale` is in scope at the render
site but does not occur in the computation; it is taken as an argument to make that
explicit. -/
def highlightOverlayStyle (scale : ℚ) (h : JHighlight) : OverlayStyle :=
  { left := h.x0 / h.width * 100
    top := h.y0 / h.height * 100
    width := (h.x1 - h.x0) / h.width * 100
    height := (h.y1 - h.y0) / h.height * 100 }

/-- A highlight rect attached to a comment (`comment.highlight_rects[]`). -/
structure HighlightRect where
  id : Nat
  page : Int
  deriving Repr, DecidableEq

/-- A citation as delivered to the frontend (`{quote, page, highlight_id}`);
`highlight_id` is nullable. -/
structure FCitation where
  quote : String
  page : Int
  highlight_id : Option Nat
  deriving Repr, DecidableEq

/-- A comment as delivered to the frontend. -/
structure FComment where
  id : Nat
  reviewer_type : String
  title : String
  content : String
  severity : String
  page : Option Int
  citations : List FCitation
  highlight_rects : List HighlightRect
  deriving Repr, DecidableEq

/-- A reviewer entry as delivered to the frontend (`{type, status, summary}`;
`status` is the string `"completed"`, `"failed"` or `"pending"`). -/
structure FReviewer where
  type : String
  status : String
  summary : String
  deriving Repr, DecidableEq

/-- The part of the component state the navigation handlers read and write. -/
structure UIState where
  currentPage : Int
  activeHighlight : Option Nat
  deriving Repr, DecidableEq

/-- `navigateToHighlight(comment)` from App.jsx: if the comment has highlight rects,
jump to the first rect's page and mark it active; otherwise, if `comment.page` is
truthy, jump to that page. -/
def navigateToHighlight (c : FComment) (s : UIState) : UIState :=
  match c.highlight_rects with
  | hl :: _ => { s with currentPage := hl.page, activeHighlight := some hl.id }
  | [] =>
    match c.page with
    | some p => if truthyInt p then { s with currentPage := p } else s
    | none => s

/-- The citation-item `onClick` handler in App.jsx: if `citation.highlight_id` is
truthy and a highlight with that id exists, jump to its page and mark it active;
otherwise do nothing. -/
def citationClick (cit : FCitation) (highlights : List JHighlight) (s : UIState) : UIState :=
  match cit.highlight_id with
  | some hid =>
    match highlights.find? (fun h => h.id == hid) with
    | some h => { s with currentPage := h.page, activeHighlight := some h.id }
    | none => s
  | none => s

/-- One configured reviewer persona entry of the `reviewers` array in App.jsx. -/
structure ReviewerConfig where
  type : String
  name : String
  deriving Repr, DecidableEq

/-- The fixed `reviewers` array of App.jsx, in source order. -/
def reviewersConfig : List ReviewerConfig :=
  [ ⟨"editor_overview", "Editor Overview"⟩
  , ⟨"methodology_reviewer", "Methodology"⟩
  , ⟨"novelty_reviewer", "Novelty"⟩
  , ⟨"clarity_reviewer", "Clarity & Writing"⟩
  , ⟨"reproducibility_reviewer", "Reproducibility"⟩ ]

/-- One rendered entry of the sidebar reviewer list. -/
structure RenderedReviewerItem where
  type : String
  isCompleted : Bool
  commentCount : Nat
  deriving Repr, DecidableEq

/-- The sidebar reviewer list of App.jsx: `reviewers.map(...)` over the static
config, looking up each persona's status in `reviewData.reviewers` and counting its
comments. -/
def renderReviewerList (rs : List FReviewer) (cs : List FComment) : List RenderedReviewerItem :=
  reviewersConfig.map (fun rv =>
    { type := rv.type
      isCompleted :=
        match rs.find? (fun r => r.type == rv.type) with
        | some r => r.status == "completed"
        | none => false
      commentCount := (cs.filter (fun c => c.reviewer_type == rv.type)).length })

/-- The review data assembled by `handleFileUpload` from the upload and analyze
responses. -/
structure ReviewDataF where
  reviewers : List FReviewer
  comments : List FComment
  highlights : List JHighlight
  deriving Repr, DecidableEq

/-- The part of the component state `handleFileUpload` reads and writes. -/
structure ReviewState where
  reviewId : Option Nat
  reviewData : Option ReviewDataF
  pdfUrl : Option String
  selectedReviewer : Option String
  reviewsThisMonth : Nat
  deriving Repr, DecidableEq

/-- JS `s.endsWith(suffix)`: the suffix test on the characters of the string. -/
def jsEndsWith (s suffix : String) : Bool :=
  suffix.data.isSuffixOf s.data

/-- A network request issued by `handleFileUpload`. -/
inductive UploadRequest where
  | upload (fileName : String)
  | analyze (id : Nat)
  deriving Repr, DecidableEq

/-- An uploaded file (only its name matters to the guard). -/
structure JFile where
  name : String
  deriving Repr, DecidableEq

/-- The backend as seen by `handleFileUpload`: the id returned by `/api/upload`
(`none` models a failed request) and the data returned by `/api/reviews/id/analyze`. -/
structure BackendModel where
  uploadResult : String → Option Nat
  analyzeResult : Nat → Option ReviewDataF

/-- `handleFileUpload(file)` from App.jsx, as a function from the optional file and
the current state to the new state and the list of requests issued.  A missing file
or a name not ending in `.pdf` alerts and returns; an exhausted free quota opens the
pricing modal and returns; otherwise the upload request is sent, `reviewId`/`pdfUrl`
are set from its response, the analyze request is sent, and on success `reviewData`,
`selectedReviewer` and the monthly counter are updated (a failed request is caught and
only alerts). -/
def handleFileUpload (canReview : Bool) (b : BackendModel) (file : Option JFile)
    (st : ReviewState) : ReviewState × List UploadRequest :=
  match file with
  | none => (st, [])
  | some f =>
    if !(jsEndsWith f.name ".pdf") then (st, [])
    else if !canReview then (st, [])
    else
      match b.uploadResult f.name with
      | none => (st, [.upload f.name])
      | some id =>
        let st1 := { st with
          reviewId := some id
          pdfUrl := some ("/api/reviews/" ++ toString id ++ "/pdf") }
        match b.analyzeResult id with
        | none => (st1, [.upload f.name, .analyze id])
        | some data =>
          ({ st1 with
              reviewData := some data
              selectedReviewer :=
                match data.reviewers with
                | r :: _ => some r.type
                | [] => st1.selectedReviewer
              reviewsThisMonth := st1.reviewsThisMonth + 1 },
            [.upload f.name, .analyze id])

end Frontend

namespace Core

/-- Modelled from the spec: the backend core is absent from the repository snapshot.
A reviewer persona: static configuration with a `type` identifier and prompt data. -/
structure Persona where
  type : String
  prompt : String
  deriving Repr, DecidableEq

/-- Modelled from the spec: status of a `ReviewerResult` (`pending`, `completed`, `failed`). -/
inductive RStatus where
  | pending
  | completed
  | failed
  deriving Repr, DecidableEq

/-- Modelled from the spec: a citation as parsed from a reviewer's structured output:
`{quote, page_hint (optional)}`. -/
structure CitationIn where
  quote : String
  pageHint : Option Nat
  deriving Repr, DecidableEq

/-- Modelled from the spec: a comment as parsed from a reviewer's structured output:
`{title, content, severity, page (best-effort), citations[]}`. -/
structure CommentIn where
  title : String
  content : String
  severity : String
  page : Option Nat
  citations : List CitationIn
  deriving Repr, DecidableEq

/-- Modelled from the spec: `ReviewerResult` `{type, status, summary, comments[]}`. -/
structure ReviewerResult where
  type : String
  status : RStatus
  summary : String
  comments : List CommentIn
  deriving Repr, DecidableEq

/-- Modelled from the spec: the terminal outcome of one reviewer task.  The Reviewer
Task Runner (4.2) always returns a terminal `ReviewerResult` rather than raising, and
the orchestrator marks a timed-out task `failed`; so each task's outcome is either
`completed` with its parsed payload or `failed` with a reason. -/
inductive TaskOutcome where
  | completed (summary : String) (comments : List CommentIn)
  | failed (reason : String)
  deriving Repr, DecidableEq

/-- Modelled from the spec: run one reviewer task to its terminal `ReviewerResult`. -/
def runTask (outcome : Persona → TaskOutcome) (p : Persona) : ReviewerResult :=
  match outcome p with
  | .completed s cs => ⟨p.type, .completed, s, cs⟩
  | .failed _ => ⟨p.type, .failed, "", []⟩

/-- Modelled from the spec: what the orchestrator hands back to the caller — all
reviewer results in persona order, and whether the run as a whole succeeded. -/
structure OrchestratorOutput where
  results : List ReviewerResult
  success : Bool
  deriving Repr, DecidableEq

/-- Modelled from the spec: `run_all(personas, ...)` (4.3, absent from the snapshot).
Fans out one task per persona; each reaches a terminal state given by `outcome`
(completion order does not affect the returned order, which is persona order); the
whole run reports success exactly when at least one reviewer completed. -/
def run_all (personas : List Persona) (outcome : Persona → TaskOutcome) : OrchestratorOutput :=
  let results := personas.map (runTask outcome)
  ⟨results, results.countP (fun r => r.status == .completed) != 0⟩

/-- Modelled from the spec: a text span of the extracted geometry `{text, x0, y0, x1, y1}`. -/
structure TextSpan where
  text : String
  x0 : ℚ
  y0 : ℚ
  x1 : ℚ
  y1 : ℚ
  deriving Repr, DecidableEq

/-- Modelled from the spec: `PageGeometry` — 0-based page index, page dimensions, and
the ordered spans of the page. -/
structure PageGeometry where
  pageIndex : Nat
  width : ℚ
  height : ℚ
  spans : List TextSpan
  deriving Repr, DecidableEq

/-- Whitespace characters collapsed by normalization. -/
def isWS (c : Char) : Bool :=
  c == ' ' || c == '\n' || c == '\t' || c == '\r'

/-- Whitespace collapsing, tracking whether the previous character was whitespace
(in which case further whitespace is absorbed into the already-emitted space). -/
def collapseAux (prevWS : Bool) : List Char → List Char
  | [] => []
  | c :: rest =>
    if isWS c then
      if prevWS then collapseAux true rest
      else ' ' :: collapseAux true rest
    else c :: collapseAux false rest

/-- Modelled from the spec: whitespace normalization — every run of whitespace
becomes a single space. -/
def collapse (l : List Char) : List Char :=
  collapseAux false l

/-- Modelled from the spec: normalize whitespace and case before comparison (4.4
step 1): lowercase every character, then collapse whitespace runs. -/
def normalize (s : String) : List Char :=
  collapse (s.data.map Char.toLower)

/-- Exact substring test on character lists (decidable, executable). -/
def containsSub (q : List Char) : List Char → Bool
  | [] => q.isEmpty
  | c :: rest => q.isPrefixOf (c :: rest) || containsSub q rest

/-- The concatenated text of a run of spans, in reading order. -/
def windowNorm (w : List TextSpan) : List Char :=
  normalize (String.intercalate " " (w.map (fun s => s.text)))

/-- Modelled from the spec: a page's concatenated span text, normalized. -/
def pageNorm (pg : PageGeometry) : List Char :=
  windowNorm pg.spans

/-- An axis-aligned bounding box. -/
structure Box where
  x0 : ℚ
  y0 : ℚ
  x1 : ℚ
  y1 : ℚ
  deriving Repr, DecidableEq

/-- The box of one span. -/
def spanBox (s : TextSpan) : Box :=
  ⟨s.x0, s.y0, s.x1, s.y1⟩

/-- Modelled from the spec: the union of the bounding boxes of a run of spans. -/
def unionBox : List TextSpan → Box
  | [] => ⟨0, 0, 0, 0⟩
  | s :: rest =>
    rest.foldl (fun b t => ⟨min b.x0 t.x0, min b.y0 t.y0, max b.x1 t.x1, max b.y1 t.y1⟩)
      (spanBox s)

/-- Find the shortest prefix window `acc ++ ...` of the spans satisfying `p`,
checking the accumulated window before extending it. -/
def findWindowAux (p : List TextSpan → Bool) (acc : List TextSpan) :
    List TextSpan → Option (List TextSpan)
  | [] => if p acc then some acc else none
  | s :: rest => if p acc then some acc else findWindowAux p (acc ++ [s]) rest

/-- Shrink a window from the left while the property still holds, yielding the
contiguous spans actually covering the match. -/
def shrinkLeft (p : List TextSpan → Bool) : List TextSpan → List TextSpan
  | [] => []
  | s :: rest => if p rest then shrinkLeft p rest else s :: rest

/-- Modelled from the spec: the contiguous spans covering the earliest match of the
normalized quote on a page (4.4 step 4).  Only called when the page text contains
the quote; the fallback arm returns the whole page and is unreachable then. -/
def coverSpans (q : List Char) (spans : List TextSpan) : List TextSpan :=
  match findWindowAux (fun w => containsSub q (windowNorm w)) [] spans with
  | some w => shrinkLeft (fun w => containsSub q (windowNorm w)) w
  | none => spans

/-- Modelled from the spec: a located citation anchor — the page index, the union
bounding box, and the page dimensions recorded on the highlight. -/
structure Anchor where
  page : Nat
  box : Box
  width : ℚ
  height : ℚ
  deriving Repr, DecidableEq

/-- Modelled from the spec: exact matching on one page — if the normalized quote is
a substring of the page's normalized concatenated text, anchor it by the union box
of the covering spans. -/
def exactOnPage (q : List Char) (pg : PageGeometry) : Option Anchor :=
  if containsSub q (pageNorm pg) then
    some ⟨pg.pageIndex, unionBox (coverSpans q pg.spans), pg.width, pg.height⟩
  else none

/-- Accumulate the current (reversed) token while scanning the characters. -/
def tokensAux (cur : List Char) : List Char → List (List Char)
  | [] => if cur.isEmpty then [] else [cur.reverse]
  | c :: rest =>
    if isWS c then
      if cur.isEmpty then tokensAux [] rest
      else cur.reverse :: tokensAux [] rest
    else tokensAux (c.toLower :: cur) rest

/-- Lowercased word tokens of a string, for approximate matching. -/
def tokenize (s : String) : List (List Char) :=
  tokensAux [] s.data

/-- Token-overlap score of a quote against a window (1 for an empty quote). -/
def overlapScore (qt wt : List (List Char)) : ℚ :=
  if qt.isEmpty then 1
  else mkRat (qt.countP (fun t => wt.contains t) : ℤ) qt.length

/-- Modelled from the spec: the configured similarity threshold (a policy value). -/
def approxThreshold : ℚ := mkRat 8 10

/-- Modelled from the spec: sliding-window approximate match on one page (4.4
step 3) — the earliest window of spans whose token overlap with the quote reaches
the threshold. -/
def approxOnPage (quote : String) (t : ℚ) (pg : PageGeometry) : Option Anchor :=
  let qt := tokenize quote
  match findWindowAux
      (fun w => decide (t ≤ overlapScore qt ((w.map (fun s => tokenize s.text)).flatten))) []
      pg.spans with
  | some w => some ⟨pg.pageIndex, unionBox (shrinkLeft
      (fun w => decide (t ≤ overlapScore qt ((w.map (fun s => tokenize s.text)).flatten))) w),
      pg.width, pg.height⟩
  | none => none

/-- Modelled from the spec: search order (4.4 step 2) — the hinted page first, then
all pages in document order. -/
def searchOrder (hint : Option Nat) (pages : List PageGeometry) : List PageGeometry :=
  match hint with
  | some h => pages.filter (fun pg => pg.pageIndex == h) ++ pages
  | none => pages

/-- Modelled from the spec: `GeometryUnavailable` — raised only when a page hint
references a page index with no geometry (a caller bug). -/
structure GeometryUnavailable where
  pageIndex : Nat
  deriving Repr, DecidableEq

/-- Modelled from the spec: search the pages in order, exact matches first
(4.4 step 3: exact substring anywhere beats an approximate match). -/
def resolveSearch (quote : String) (order : List PageGeometry) : Option Anchor :=
  match order.findSome? (exactOnPage (normalize quote)) with
  | some a => some a
  | none => order.findSome? (approxOnPage quote approxThreshold)

/-- Modelled from the spec: resolve one citation quote against the geometry (4.4,
absent from the snapshot).  An out-of-range page hint raises `GeometryUnavailable`;
otherwise a missing match is the normal `none` outcome, never an error. -/
def resolveQuote (quote : String) (hint : Option Nat) (pages : List PageGeometry) :
    Except GeometryUnavailable (Option Anchor) :=
  match hint with
  | some h =>
    if pages.any (fun pg => pg.pageIndex == h) then
      .ok (resolveSearch quote (searchOrder (some h) pages))
    else .error ⟨h⟩
  | none => .ok (resolveSearch quote pages)

end Core

namespace Core

/-- Modelled from the spec: a citation in the final aggregate, with its resolved
nullable `highlight_id`. -/
structure Citation where
  quote : String
  pageHint : Option Nat
  highlight_id : Option Nat
  deriving Repr, DecidableEq

/-- Modelled from the spec: a comment of the final aggregate, with its id assigned
by the aggregator. -/
structure Comment where
  id : Nat
  reviewer_type : String
  title : String
  content : String
  severity : String
  page : Option Nat
  citations : List Citation
  deriving Repr, DecidableEq

/-- Modelled from the spec: `Highlight` `{id, page, x0, y0, x1, y1, width, height,
comment_id}`. -/
structure Highlight where
  id : Nat
  page : Nat
  x0 : ℚ
  y0 : ℚ
  x1 : ℚ
  y1 : ℚ
  width : ℚ
  height : ℚ
  comment_id : Nat
  deriving Repr, DecidableEq

/-- Build one highlight record from an anchor, an id and the owning comment's id. -/
def mkHighlight (hid cid : Nat) (a : Anchor) : Highlight :=
  ⟨hid, a.page, a.box.x0, a.box.y0, a.box.x1, a.box.y1, a.width, a.height, cid⟩

/-- Modelled from the spec: resolve the citations of one comment (id `cid`),
drawing fresh highlight ids from the counter `hid`; returns the final citations,
the highlights they reference, and the next free highlight id. -/
def resolveCitations (pages : List PageGeometry) (cid : Nat) (hid : Nat) :
    List CitationIn → Except GeometryUnavailable (List Citation × List Highlight × Nat)
  | [] => .ok ([], [], hid)
  | cit :: rest =>
    match resolveQuote cit.quote cit.pageHint pages with
    | .error e => .error e
    | .ok none =>
      match resolveCitations pages cid hid rest with
      | .error e => .error e
      | .ok (cs, hls, hid') => .ok (⟨cit.quote, cit.pageHint, none⟩ :: cs, hls, hid')
    | .ok (some a) =>
      match resolveCitations pages cid (hid + 1) rest with
      | .error e => .error e
      | .ok (cs, hls, hid') =>
        .ok (⟨cit.quote, cit.pageHint, some hid⟩ :: cs, mkHighlight hid cid a :: hls, hid')

/-- Modelled from the spec: fold over all (reviewer type, raw comment) pairs,
assigning monotonic comment ids from `cid` and highlight ids from `hid`, resolving
each comment's citations and accumulating the flat highlight list. -/
def buildComments (pages : List PageGeometry) :
    Nat → Nat → List (String × CommentIn) →
    Except GeometryUnavailable (List Comment × List Highlight × Nat × Nat)
  | cid, hid, [] => .ok ([], [], cid, hid)
  | cid, hid, (rt, rc) :: rest =>
    match resolveCitations pages cid hid rc.citations with
    | .error e => .error e
    | .ok (cits, hls, hid') =>
      match buildComments pages (cid + 1) hid' rest with
      | .error e => .error e
      | .ok (cs, hls2, cid'', hid'') =>
        .ok (⟨cid, rt, rc.title, rc.content, rc.severity, rc.page, cits⟩ :: cs,
          hls ++ hls2, cid'', hid'')

/-- Modelled from the spec: the aggregate root `ReviewResult`. -/
structure ReviewResult where
  id : Nat
  title : String
  page_count : Nat
  reviewers : List ReviewerResult
  comments : List Comment
  highlights : List Highlight
  deriving Repr, DecidableEq

/-- Modelled from the spec: `build(reviewer_results, geometry)` (4.5, absent from
the snapshot) — flatten all reviewers' comments in order, assign ids from counters
scoped to this result, resolve citations once per comment, and assemble the frozen
aggregate. -/
def build (resultId : Nat) (title : String) (rs : List ReviewerResult)
    (pages : List PageGeometry) : Except GeometryUnavailable ReviewResult :=
  match buildComments pages 0 0
      ((rs.map (fun r => r.comments.map (fun c => (r.type, c)))).flatten) with
  | .error e => .error e
  | .ok (cs, hls, _, _) => .ok ⟨resultId, title, pages.length, rs, cs, hls⟩

end Core

namespace Frontend

/-- A concrete highlight record used to instantiate the overlay theorem. -/
def hlW : JHighlight := ⟨1, 3, 10, 20, 110, 45, 600, 800, 7⟩

/-- A concrete comment with one highlight rect. -/
def cW1 : FComment := ⟨1, "editor_overview", "t", "c", "minor", some 4, [], [⟨9, 6⟩]⟩

/-- A concrete comment with no highlight rects but a page number. -/
def cW2 : FComment := ⟨2, "editor_overview", "t", "c", "minor", some 4, [], []⟩

/-- A concrete backend oracle for the upload-guard witness. -/
def bW : BackendModel := ⟨fun _ => some 7, fun _ => none⟩

/-- A concrete initial review state. -/
def stW : ReviewState := ⟨none, none, none, none, 0⟩

end Frontend

namespace Core

/-- A concrete page geometry: page index 2, 600x800, a single span. -/
def pgW : PageGeometry := ⟨2, 600, 800, [⟨"We report a 92% accuracy", 10, 20, 300, 35⟩]⟩

/-- A concrete geometry for the aggregator witness. -/
def wPages : List PageGeometry :=
  [⟨0, 600, 800, [⟨"Deep learning works well", 10, 20, 200, 35⟩,
                  ⟨"on small data", 10, 40, 150, 55⟩]⟩]

/-- Concrete reviewer results for the aggregator witness: one completed reviewer
whose comment has one resolvable and one unresolvable citation, one failed reviewer. -/
def wReviewers : List ReviewerResult :=
  [⟨"editor_overview", .completed, "fine",
    [⟨"t1", "c1", "minor", some 1, [⟨"deep learning", none⟩, ⟨"no such text here", none⟩]⟩]⟩,
   ⟨"methodology_reviewer", .failed, "", []⟩]

/-- The aggregate `build` produces on the witness inputs. -/
def wResult : ReviewResult :=
  ⟨1, "Paper", 1, wReviewers,
   [⟨0, "editor_overview", "t1", "c1", "minor", some 1,
     [⟨"deep learning", none, some 0⟩, ⟨"no such text here", none, none⟩]⟩],
   [⟨0, 0, 10, 20, 200, 35, 600, 800, 0⟩]⟩

/-- A concrete persona list for the orchestrator witness. -/
def psW : List Persona := [⟨"editor_overview", ""⟩, ⟨"methodology_reviewer", ""⟩]

/-- A concrete outcome assignment: the first persona completes, the rest time out. -/
def ocW : Persona → TaskOutcome := fun p =>
  if p.type == "editor_overview" then .completed "ok" [] else .failed "timeout"

end Core

namespace Db

/-- Helper: incrementing for a (user, month) pair with no matching row appends the
fresh row, so the first matching row of the result is `⟨u, m, 1⟩`. -/
theorem find?_increment_eq_of_none (db : List UsageRow) (u m : String)
    (h : ∀ x ∈ db, rowMatches u m x = false) :
    (increment_usage db u m).find? (rowMatches u m) = some ⟨u, m, 1⟩ := by
  induction db with
  | nil => simp [increment_usage, List.find?, rowMatches]
  | cons r rest ih =>
    have hr := h r (List.mem_cons_self r rest)
    simp only [increment_usage, hr, Bool.false_eq_true, if_false, List.find?]
    exact ih (fun x hx => h x (List.mem_cons_of_mem r hx))

/-- C10: for every user and (current) month, `increment_usage` followed by
`get_monthly_usage` returns exactly one more than `get_monthly_usage` returned
before; when no usage row matches, the read returns 0 and the first increment
creates the row with `review_count` 1. -/
theorem increment_then_get_succ (db : List UsageRow) (u m : String) :
    get_monthly_usage (increment_usage db u m) u m = get_monthly_usage db u m + 1 ∧
    ((∀ x ∈ db, rowMatches u m x = false) →
      get_monthly_usage db u m = 0 ∧
      (increment_usage db u m).find? (rowMatches u m) = some ⟨u, m, 1⟩) := by
  constructor
  · induction db with
    | nil => simp [increment_usage, get_monthly_usage, List.find?, rowMatches]
    | cons r rest ih =>
      by_cases hr : rowMatches u m r = true
      · have hr2 : rowMatches u m { r with review_count := r.review_count + 1 } = true := by
          simpa [rowMatches] using hr
        simp [increment_usage, get_monthly_usage, hr, hr2, List.find?]
      · simp only [Bool.not_eq_true] at hr
        simpa [increment_usage, get_monthly_usage, hr, List.find?] using ih
  · intro h
    refine ⟨?_, find?_increment_eq_of_none db u m h⟩
    have : db.find? (rowMatches u m) = none :=
      List.find?_eq_none.mpr (fun x hx => by simp [h x hx])
    simp [get_monthly_usage, this]

/-- Witness for C10 at a concrete database, user and month. -/
theorem increment_then_get_succ_witness :
    get_monthly_usage (increment_usage [⟨"v", "2026-09", 5⟩] "u" "2026-10") "u" "2026-10" =
        get_monthly_usage [⟨"v", "2026-09", 5⟩] "u" "2026-10" + 1 ∧
    (get_monthly_usage [⟨"v", "2026-09", 5⟩] "u" "2026-10" = 0 ∧
      (increment_usage [⟨"v", "2026-09", 5⟩] "u" "2026-10").find?
          (rowMatches "u" "2026-10") = some ⟨"u", "2026-10", 1⟩) :=
  have h := increment_then_get_succ [⟨"v", "2026-09", 5⟩] "u" "2026-10"
  ⟨h.1, h.2 (by decide)⟩

end Db

namespace Frontend

/-- C8: `goToPage` sets the current page to `max 1 (min p (numPages || 1))`; the
result is always at least 1, and at most the page count once the document reports a
positive page count. -/
theorem goToPage_clamped (numPages : Option Int) (p : Int) :
    goToPage numPages p = max 1 (min p (jsOr1 numPages)) ∧
    1 ≤ goToPage numPages p ∧
    (∀ n, numPages = some n → 0 < n → goToPage numPages p ≤ n) := by
  refine ⟨rfl, le_max_left _ _, ?_⟩
  intro n hn hpos
  subst hn
  have hne : truthyInt n = true := by simp [truthyInt]; omega
  simp only [goToPage, jsOr1, hne, if_true]
  exact max_le (by omega) (min_le_right _ _)

/-- Witness for C8 at a loaded 5-page document and an out-of-range request. -/
theorem goToPage_clamped_witness :
    goToPage (some 5) 99 = max 1 (min 99 (jsOr1 (some 5))) ∧
    1 ≤ goToPage (some 5) 99 ∧
    goToPage (some 5) 99 ≤ 5 :=
  have h := goToPage_clamped (some 5) 99
  ⟨h.1, h.2.1, h.2.2 5 rfl (by decide)⟩

/-- C4: every highlight rendered on the current page has that page number, and its
overlay rectangle is positioned by the fraction formula over the width/height
recorded on the highlight record itself, identically at every client zoom level. -/
theorem highlight_overlay_fractions (hs : List JHighlight) (pageN : Int)
    (scale scale2 : ℚ) (h : JHighlight)
    (hmem : h ∈ getCurrentPageHighlights hs pageN) :
    h.page = pageN ∧
    highlightOverlayStyle scale h =
      ⟨h.x0 / h.width * 100, h.y0 / h.height * 100,
        (h.x1 - h.x0) / h.width * 100, (h.y1 - h.y0) / h.height * 100⟩ ∧
    highlightOverlayStyle scale h = highlightOverlayStyle scale2 h := by
  refine ⟨?_, rfl, rfl⟩
  have hmem2 : h ∈ hs ∧ h.page == pageN := by
    simpa [getCurrentPageHighlights, List.mem_filter] using hmem
  simpa using hmem2.2

/-- Witness for C4 at a concrete highlight and two zoom levels. -/
theorem highlight_overlay_fractions_witness :
    hlW.page = 3 ∧
    highlightOverlayStyle 1 hlW =
      ⟨hlW.x0 / hlW.width * 100, hlW.y0 / hlW.height * 100,
        (hlW.x1 - hlW.x0) / hlW.width * 100, (hlW.y1 - hlW.y0) / hlW.height * 100⟩ ∧
    highlightOverlayStyle 1 hlW = highlightOverlayStyle 2 hlW :=
  highlight_overlay_fractions [hlW] 3 1 2 hlW (by decide)

/-- C5: the sidebar reviewer list is rendered in the fixed configured persona order,
whatever reviewer data arrived and in whatever completion order. -/
theorem reviewer_list_fixed_order (rs : List FReviewer) (cs : List FComment) :
    (renderReviewerList rs cs).map (fun item => item.type) =
      ["editor_overview", "methodology_reviewer", "novelty_reviewer",
       "clarity_reviewer", "reproducibility_reviewer"] := rfl

/-- C6: clicking a comment with highlight rects jumps to the first rect's page and
marks that highlight active; clicking a comment with no rects but a (truthy) page
number jumps to that page, leaving the active highlight unchanged. -/
theorem navigate_comment_click (c : FComment) (s : UIState) :
    (∀ hl rest, c.highlight_rects = hl :: rest →
      navigateToHighlight c s = ⟨hl.page, some hl.id⟩) ∧
    (∀ p, c.highlight_rects = [] → c.page = some p → p ≠ 0 →
      (navigateToHighlight c s).currentPage = p ∧
      (navigateToHighlight c s).activeHighlight = s.activeHighlight) := by
  constructor
  · intro hl rest hr
    simp [navigateToHighlight, hr]
  · intro p hr hp hp0
    have ht : truthyInt p = true := by simpa [truthyInt] using hp0
    simp [navigateToHighlight, hr, hp, ht]

/-- Witness for C6: one comment with a rect, one with only a page number. -/
theorem navigate_comment_click_witness :
    navigateToHighlight cW1 ⟨1, none⟩ = ⟨6, some 9⟩ ∧
    (navigateToHighlight cW2 ⟨1, none⟩).currentPage = 4 ∧
    (navigateToHighlight cW2 ⟨1, none⟩).activeHighlight = none :=
  ⟨(navigate_comment_click cW1 ⟨1, none⟩).1 ⟨9, 6⟩ [] rfl,
   ((navigate_comment_click cW2 ⟨1, none⟩).2 4 rfl rfl (by decide)).1,
   ((navigate_comment_click cW2 ⟨1, none⟩).2 4 rfl rfl (by decide)).2⟩

/-- C7: a citation with a null `highlight_id` is a normal outcome: its click handler
changes neither the current page nor the active highlight (the handler is a total
function on the state — no error path exists). -/
theorem citation_null_click_noop (cit : FCitation) (hs : List JHighlight) (s : UIState)
    (h : cit.highlight_id = none) :
    citationClick cit hs s = s := by
  simp [citationClick, h]

/-- Witness for C7 at a concrete unresolved citation. -/
theorem citation_null_click_noop_witness :
    citationClick ⟨"q", 2, none⟩ [hlW] ⟨5, some 3⟩ = ⟨5, some 3⟩ :=
  citation_null_click_noop ⟨"q", 2, none⟩ [hlW] ⟨5, some 3⟩ rfl

/-- C9: a missing file, or a file whose name does not end in `.pdf`, makes
`handleFileUpload` issue no request and leave the review state unchanged. -/
theorem upload_guard_rejects_non_pdf (canReview : Bool) (b : BackendModel)
    (file : Option JFile) (st : ReviewState)
    (h : file = none ∨ ∃ f, file = some f ∧ jsEndsWith f.name ".pdf" = false) :
    handleFileUpload canReview b file st = (st, []) := by
  rcases h with h | ⟨f, hf, hn⟩
  · subst h; rfl
  · subst hf; simp [handleFileUpload, hn]

/-- Witness for C9 at a concrete non-PDF file name. -/
theorem upload_guard_rejects_non_pdf_witness :
    handleFileUpload true bW (some ⟨"paper.txt"⟩) stW = (stW, []) :=
  upload_guard_rejects_non_pdf true bW (some ⟨"paper.txt"⟩) stW
    (Or.inr ⟨⟨"paper.txt"⟩, rfl, by decide⟩)

end Frontend

namespace Core

/-- C1: `run_all` returns one result per reviewer task, every returned result is in
a terminal state, and the run reports overall success exactly when at least one
`ReviewerResult` reached status `completed` (zero completions report failure). -/
theorem run_all_success_iff_some_completed (ps : List Persona) (oc : Persona → TaskOutcome) :
    (run_all ps oc).results.length = ps.length ∧
    (∀ r ∈ (run_all ps oc).results, r.status ≠ .pending) ∧
    ((run_all ps oc).success = true ↔
      ∃ r ∈ (run_all ps oc).results, r.status = .completed) := by
  refine ⟨List.length_map _ _, ?_, ?_⟩
  · intro r hr
    obtain ⟨p, _, rfl⟩ := List.mem_map.mp hr
    unfold runTask
    cases oc p <;> simp
  · show ((ps.map (runTask oc)).countP (fun r => r.status == .completed) != 0) = true ↔ _
    rw [bne_iff_ne, ← Nat.pos_iff_ne_zero, List.countP_pos_iff]
    simp [run_all]

/-- Witness for C1 at two concrete tasks, one completing and one timing out. -/
theorem run_all_success_iff_some_completed_witness :
    (run_all psW ocW).results.length = psW.length ∧
    (⟨"editor_overview", .completed, "ok", []⟩ : ReviewerResult).status ≠ .pending ∧
    (run_all psW ocW).success = true :=
  have h := run_all_success_iff_some_completed psW ocW
  ⟨h.1, h.2.1 ⟨"editor_overview", .completed, "ok", []⟩ (by decide),
   h.2.2.mpr ⟨⟨"editor_overview", .completed, "ok", []⟩, by decide, rfl⟩⟩

end Core

namespace Core

/-- Helper: `findSome?` succeeds when some list element produces a value. -/
theorem findSome?_isSome_of_mem {α β : Type} {f : α → Option β} {l : List α} {a : α}
    {b : β} (ha : a ∈ l) (hb : f a = some b) : (l.findSome? f).isSome := by
  induction l with
  | nil => cases ha
  | cons x xs ih =>
    rw [List.findSome?_cons]
    cases hx : f x with
    | some y => simp
    | none =>
      rcases List.mem_cons.mp ha with rfl | hmem
      · rw [hb] at hx; cases hx
      · exact ih hmem

/-- Helper: a value produced by `findSome?` comes from some list element. -/
theorem mem_of_findSome?_eq_some {α β : Type} {f : α → Option β} {l : List α} {b : β}
    (h : l.findSome? f = some b) : ∃ a ∈ l, f a = some b := by
  induction l with
  | nil => simp [List.findSome?] at h
  | cons x xs ih =>
    rw [List.findSome?_cons] at h
    cases hx : f x with
    | some y =>
      rw [hx] at h
      exact ⟨x, List.mem_cons_self x xs, hx.trans h⟩
    | none =>
      rw [hx] at h
      obtain ⟨a, ha, hfa⟩ := ih h
      exact ⟨a, List.mem_cons_of_mem x ha, hfa⟩

/-- C3: if the normalized quote is an exact substring of some page's concatenated
span text (and the page hint, when present, is in range), `resolveQuote` yields a
non-null anchor, and the anchor's page is one whose concatenated text contains the
quote. -/
theorem resolve_exact_substring_nonnull (quote : String) (hint : Option Nat)
    (pages : List PageGeometry) (pg : PageGeometry)
    (hmem : pg ∈ pages)
    (hsub : containsSub (normalize quote) (pageNorm pg) = true)
    (hhint : ∀ n, hint = some n → pages.any (fun g => g.pageIndex == n) = true) :
    ∃ a, resolveQuote quote hint pages = .ok (some a) ∧
      ∃ pg2 ∈ pages, pg2.pageIndex = a.page ∧
        containsSub (normalize quote) (pageNorm pg2) = true := by
  have hord : pg ∈ searchOrder hint pages := by
    cases hint with
    | none => simpa [searchOrder] using hmem
    | some n =>
      simp only [searchOrder, List.mem_append]
      exact Or.inr hmem
  have hex : exactOnPage (normalize quote) pg =
      some ⟨pg.pageIndex, unionBox (coverSpans (normalize quote) pg.spans),
        pg.width, pg.height⟩ := by
    simp [exactOnPage, hsub]
  obtain ⟨a, ha⟩ := Option.isSome_iff_exists.mp (findSome?_isSome_of_mem hord hex)
  obtain ⟨pg2, hpg2mem, hpg2⟩ := mem_of_findSome?_eq_some ha
  have hpg2pages : pg2 ∈ pages := by
    cases hint with
    | none => simpa [searchOrder] using hpg2mem
    | some n =>
      rcases List.mem_append.mp hpg2mem with hfil | hp
      · exact (List.mem_filter.mp hfil).1
      · exact hp
  have hcond : containsSub (normalize quote) (pageNorm pg2) = true := by
    by_contra hc
    simp [exactOnPage, hc] at hpg2
  have hpage : pg2.pageIndex = a.page := by
    rw [exactOnPage, if_pos hcond] at hpg2
    cases hpg2
    rfl
  have hres : resolveSearch quote (searchOrder hint pages) = some a := by
    simp [resolveSearch, ha]
  refine ⟨a, ?_, pg2, hpg2pages, hpage, hcond⟩
  cases hint with
  | none =>
    show Except.ok (resolveSearch quote pages) = _
    simp only [searchOrder] at hres
    rw [hres]
  | some n =>
    simp only [resolveQuote, hhint n rfl, if_true]
    rw [hres]

/-- Witness for C3 at the spec's concrete scenario: one span on page 2, quote
`92% accuracy`, page hint 2. -/
theorem resolve_exact_substring_nonnull_witness :
    ∃ a, resolveQuote "92% accuracy" (some 2) [pgW] = .ok (some a) ∧
      ∃ pg2 ∈ [pgW], pg2.pageIndex = a.page ∧
        containsSub (normalize "92% accuracy") (pageNorm pg2) = true :=
  resolve_exact_substring_nonnull "92% accuracy" (some 2) [pgW] pgW
    (List.mem_singleton.mpr rfl) (by decide) (fun n hn => by cases hn; decide)

end Core

namespace Core

/-- Helper: the citations resolved for one comment reference only highlights
produced alongside them, and those highlights all carry that comment's id. -/
theorem resolveCitations_refs (pages : List PageGeometry) (cid : Nat)
    (cits : List CitationIn) :
    ∀ hid cs hls hid',
      resolveCitations pages cid hid cits = .ok (cs, hls, hid') →
      (∀ hl ∈ hls, hl.comment_id = cid) ∧
      (∀ c ∈ cs, ∀ i, c.highlight_id = some i → ∃ hl ∈ hls, hl.id = i) := by
  induction cits with
  | nil =>
    intro hid cs hls hid' h
    simp only [resolveCitations, Except.ok.injEq, Prod.mk.injEq] at h
    obtain ⟨rfl, rfl, rfl⟩ := h
    simp
  | cons cit rest ih =>
    intro hid cs hls hid' h
    simp only [resolveCitations] at h
    cases hq : resolveQuote cit.quote cit.pageHint pages with
    | error e => rw [hq] at h; cases h
    | ok oa =>
      rw [hq] at h
      cases oa with
      | none =>
        cases hrec : resolveCitations pages cid hid rest with
        | error e => rw [hrec] at h; cases h
        | ok triple =>
          obtain ⟨cs0, hls0, hid0⟩ := triple
          rw [hrec] at h
          simp only [Except.ok.injEq, Prod.mk.injEq] at h
          obtain ⟨rfl, rfl, rfl⟩ := h
          obtain ⟨ih1, ih2⟩ := ih hid cs0 hls0 hid0 hrec
          refine ⟨ih1, ?_⟩
          intro c hc i hi
          rcases List.mem_cons.mp hc with rfl | hc2
          · cases hi
          · exact ih2 c hc2 i hi
      | some a =>
        cases hrec : resolveCitations pages cid (hid + 1) rest with
        | error e => rw [hrec] at h; cases h
        | ok triple =>
          obtain ⟨cs0, hls0, hid0⟩ := triple
          rw [hrec] at h
          simp only [Except.ok.injEq, Prod.mk.injEq] at h
          obtain ⟨rfl, rfl, rfl⟩ := h
          obtain ⟨ih1, ih2⟩ := ih (hid + 1) cs0 hls0 hid0 hrec
          constructor
          · intro hl hhl
            rcases List.mem_cons.mp hhl with rfl | hhl2
            · rfl
            · exact ih1 hl hhl2
          · intro c hc i hi
            rcases List.mem_cons.mp hc with rfl | hc2
            · cases hi
              exact ⟨mkHighlight hid cid a, List.mem_cons_self _ _, rfl⟩
            · obtain ⟨hl, hhl, hid_eq⟩ := ih2 c hc2 i hi
              exact ⟨hl, List.mem_cons_of_mem _ hhl, hid_eq⟩

/-- Helper: over the whole fold, every accumulated highlight belongs to an
accumulated comment and every non-null citation reference hits an accumulated
highlight. -/
theorem buildComments_refs (pages : List PageGeometry) (flat : List (String × CommentIn)) :
    ∀ cid hid cs hls cid' hid',
      buildComments pages cid hid flat = .ok (cs, hls, cid', hid') →
      (∀ hl ∈ hls, ∃ c ∈ cs, c.id = hl.comment_id) ∧
      (∀ c ∈ cs, ∀ cit ∈ c.citations, ∀ i, cit.highlight_id = some i →
        ∃ hl ∈ hls, hl.id = i) := by
  induction flat with
  | nil =>
    intro cid hid cs hls cid' hid' h
    simp only [buildComments, Except.ok.injEq, Prod.mk.injEq] at h
    obtain ⟨rfl, rfl, rfl, rfl⟩ := h
    simp
  | cons pair rest ih =>
    intro cid hid cs hls cid' hid' h
    obtain ⟨rt, rc⟩ := pair
    simp only [buildComments] at h
    cases hres : resolveCitations pages cid hid rc.citations with
    | error e => rw [hres] at h; cases h
    | ok triple =>
      obtain ⟨cits, hls1, hid1⟩ := triple
      rw [hres] at h
      dsimp only at h
      cases hrec : buildComments pages (cid + 1) hid1 rest with
      | error e => rw [hrec] at h; cases h
      | ok quad =>
        obtain ⟨cs0, hls2, cid0, hid0⟩ := quad
        rw [hrec] at h
        simp only [Except.ok.injEq, Prod.mk.injEq] at h
        obtain ⟨rfl, rfl, rfl, rfl⟩ := h
        obtain ⟨r1, r2⟩ := resolveCitations_refs pages cid rc.citations hid cits hls1 hid1 hres
        obtain ⟨ih1, ih2⟩ := ih (cid + 1) hid1 cs0 hls2 cid0 hid0 hrec
        constructor
        · intro hl hhl
          rcases List.mem_append.mp hhl with h1 | h2
          · exact ⟨⟨cid, rt, rc.title, rc.content, rc.severity, rc.page, cits⟩,
              List.mem_cons_self _ _, (r1 hl h1).symm⟩
          · obtain ⟨c, hc, hceq⟩ := ih1 hl h2
            exact ⟨c, List.mem_cons_of_mem _ hc, hceq⟩
        · intro c hc cit hcit i hi
          rcases List.mem_cons.mp hc with rfl | hc2
          · obtain ⟨hl, hhl, heq⟩ := r2 cit hcit i hi
            exact ⟨hl, List.mem_append.mpr (Or.inl hhl), heq⟩
          · obtain ⟨hl, hhl, heq⟩ := ih2 c hc2 cit hcit i hi
            exact ⟨hl, List.mem_append.mpr (Or.inr hhl), heq⟩

/-- C2: in every `ReviewResult` the aggregator builds, every highlight's
`comment_id` references an existing comment's id, and every non-null citation
`highlight_id` references an existing highlight's id. -/
theorem build_no_dangling_references (resultId : Nat) (title : String)
    (rs : List ReviewerResult) (pages : List PageGeometry) (res : ReviewResult)
    (h : build resultId title rs pages = .ok res) :
    (∀ hl ∈ res.highlights, ∃ c ∈ res.comments, c.id = hl.comment_id) ∧
    (∀ c ∈ res.comments, ∀ cit ∈ c.citations, ∀ i, cit.highlight_id = some i →
      ∃ hl ∈ res.highlights, hl.id = i) := by
  unfold build at h
  cases hb : buildComments pages 0 0
      ((rs.map (fun r => r.comments.map (fun c => (r.type, c)))).flatten) with
  | error e => rw [hb] at h; cases h
  | ok quad =>
    obtain ⟨cs, hls, cid, hid⟩ := quad
    rw [hb] at h
    simp only [Except.ok.injEq] at h
    subst h
    exact buildComments_refs pages _ 0 0 cs hls cid hid hb

/-- Witness for C2 at the concrete aggregation `wResult` of `wReviewers` over
`wPages`. -/
theorem build_no_dangling_references_witness :
    (∀ hl ∈ wResult.highlights, ∃ c ∈ wResult.comments, c.id = hl.comment_id) ∧
    (∀ c ∈ wResult.comments, ∀ cit ∈ c.citations, ∀ i, cit.highlight_id = some i →
      ∃ hl ∈ wResult.highlights, hl.id = i) :=
  build_no_dangling_references 1 "Paper" wReviewers wPages wResult (by rfl)

end Core
